import Mathlib

/-!
Shallow embedding of `src/postprocess.py` (the business-definition
resolution engine of simonharrer/apidays-demo-2025): YAML values as parsed
by `yaml.safe_load`, Python dict / `in` / indexing semantics, the
definition resolver `resolve_business_definition`, the merge engine
`merge_properties`, the recursive OpenAPI schema walker `process_schema`,
the ODCS property walker `process_odcs_property`, and the two document
pipelines `postprocess_openapi` / `postprocess_odcs`.

Side effects are made explicit: `M α` is an error monad (fatal Python
exceptions) paired with an ordered list of emitted warning lines
(`print(f"Warning: ...")`).  The filesystem is a parameter mapping a path
to "missing", "exists but yaml.safe_load raises", or a parsed value.
Writing the output file is modelled by returning the final document.
-/

namespace Postprocess

/-- A parsed YAML value as produced by `yaml.safe_load`.  Floats are not
used by the repository's documents and are omitted. -/
inductive Yaml where
  | null : Yaml
  | bool (b : Bool) : Yaml
  | str (s : String) : Yaml
  | int (n : Int) : Yaml
  | arr (xs : List Yaml) : Yaml
  | obj (kvs : List (String × Yaml)) : Yaml
deriving Repr

/-- First-match lookup in an association list: Python `d[k]` / `d.get(k)`
on a dict.  Python dicts have unique keys, so first match is the match. -/
def lookup (k : String) : List (String × Yaml) → Option Yaml
  | [] => none
  | (k', v) :: rest => if k' = k then some v else lookup k rest

/-- Python `k in d` for a dict `d`. -/
def hasKey (k : String) (kvs : List (String × Yaml)) : Bool :=
  kvs.any (fun p => p.1 = k)

/-- Python `d[k] = v` on a dict: replace in place if the key exists
(keeping its position), else append (insertion order preserved). -/
def setKey (k : String) (v : Yaml) : List (String × Yaml) → List (String × Yaml)
  | [] => [(k, v)]
  | (k', v') :: rest => if k' = k then (k, v) :: rest else (k', v') :: setKey k v rest

/-- Python truthiness of a YAML value (used by `if business_def:`). -/
def Yaml.truthy : Yaml → Bool
  | .null => false
  | .bool b => b
  | .str s => !s.isEmpty
  | .int n => n != 0
  | .arr xs => !xs.isEmpty
  | .obj kvs => !kvs.isEmpty

/-- Python `==` between the result of `d.get(k)` (possibly `None`) and a
string literal: true exactly when the value is present and is that
string. -/
def optEqStr (v : Option Yaml) (s : String) : Bool :=
  match v with
  | some (.str s') => s' = s
  | _ => false

/-- Python `==` between a YAML value and a string literal. -/
def yamlIsStr (y : Yaml) (s : String) : Bool :=
  match y with
  | .str s' => s' = s
  | _ => false

/-- Python substring containment: `needle in hay` for strings. -/
def strIncludes (needle hay : String) : Bool :=
  hay.toList.tails.any (fun t => needle.toList.isPrefixOf t)

/-- `s.startswith(pre)`. -/
def strStartsWith (s pre : String) : Bool :=
  pre.toList.isPrefixOf s.toList

mutual
/-- A structural size for YAML values, used as the fuel bound of the
recursive walker.  Every node counts at least 1, so `size y` strictly
exceeds the length of any descending chain in `y`. -/
def Yaml.size : Yaml → Nat
  | .null => 1
  | .bool _ => 1
  | .str _ => 1
  | .int _ => 1
  | .arr xs => Yaml.sizeList xs + 1
  | .obj kvs => Yaml.sizeDict kvs + 1

def Yaml.sizeList : List Yaml → Nat
  | [] => 0
  | x :: xs => Yaml.size x + Yaml.sizeList xs + 1

def Yaml.sizeDict : List (String × Yaml) → Nat
  | [] => 0
  | (_, v) :: rest => Yaml.size v + Yaml.sizeDict rest + 1
end

/-- Fatal Python exceptions raised by the script. -/
inductive Err where
  | fileNotFound (path : String)
  | parseError (path : String)
  | typeError (msg : String)
  | attributeError (msg : String)
  | keyError (k : String)
deriving Repr, DecidableEq

/-- The effect monad of the embedding: a fatal error aborts the run
(discarding the document); otherwise a value is produced together with
the ordered list of warning lines printed so far. -/
def M (α : Type) : Type := Except Err (α × List String)

instance : Monad M where
  pure a := Except.ok (a, [])
  bind x f :=
    match x with
    | .error e => Except.error e
    | .ok (a, ds) =>
      match f a with
      | .error e => Except.error e
      | .ok (b, ds2) => Except.ok (b, ds ++ ds2)

/-- A successful `M` outcome: result plus warning lines in order. -/
@[reducible] def M.ok (a : α) (ds : List String) : M α := Except.ok (a, ds)

/-- A fatal `M` outcome. -/
@[reducible] def M.err (e : Err) : M α := Except.error e

/-- Prepend warning lines to an `M` outcome (a reasoning helper for the
bind of `M`). -/
def M.withWarnings (ds : List String) : M α → M α
  | Except.error e => Except.error e
  | Except.ok (a, ds2) => Except.ok (a, ds ++ ds2)

/-- `print(f"Warning: ...")`. -/
def warn (msg : String) : M Unit := M.ok () [msg]

/-- Raise a fatal exception. -/
def fatal (e : Err) : M α := M.err e

/-- Lift a warning-free fallible computation into `M`. -/
def liftE : Except Err α → M α
  | .error e => M.err e
  | .ok a => M.ok a []

/-- Python `k in v` for a string key `k` and an arbitrary value `v`:
key membership for a dict, element equality for a list, substring test
for a string, `TypeError` otherwise. -/
def pyContains (v : Yaml) (k : String) : Except Err Bool :=
  match v with
  | .obj kvs => .ok (hasKey k kvs)
  | .arr xs => .ok (xs.any (fun y => yamlIsStr y k))
  | .str s => .ok (strIncludes k s)
  | .null => .error (.typeError "argument of type NoneType is not iterable")
  | .bool _ => .error (.typeError "argument of type bool is not iterable")
  | .int _ => .error (.typeError "argument of type int is not iterable")

/-- Python `v[k]` for a string key `k`. -/
def pyGet (v : Yaml) (k : String) : Except Err Yaml :=
  match v with
  | .obj kvs =>
    match lookup k kvs with
    | some x => .ok x
    | none => .error (.keyError k)
  | .str _ => .error (.typeError "string indices must be integers")
  | .arr _ => .error (.typeError "list indices must be integers")
  | .null => .error (.typeError "NoneType is not subscriptable")
  | .bool _ => .error (.typeError "bool is not subscriptable")
  | .int _ => .error (.typeError "int is not subscriptable")

/-- Python `v[k] = x` for a string key `k`. -/
def pySet (v : Yaml) (k : String) (x : Yaml) : Except Err Yaml :=
  match v with
  | .obj kvs => .ok (.obj (setKey k x kvs))
  | _ => .error (.typeError "object does not support item assignment")

/-- What the filesystem holds at a path: the file parses to a value, or
it exists but `yaml.safe_load` raises on it. -/
inductive FileContent where
  | parsed (y : Yaml)
  | malformed
deriving Repr

/-- The filesystem: `none` means the path does not exist. -/
def FS : Type := String → Option FileContent

/-- `load_yaml(path)`: `open` raises if the file is missing, and
`yaml.safe_load` raises if it is malformed; both are fatal. -/
def load_yaml (fs : FS) (path : String) : M Yaml :=
  match fs path with
  | none => fatal (.fileNotFound path)
  | some .malformed => fatal (.parseError path)
  | some (.parsed y) => pure y

/-- `base_path / rel` of `pathlib` for the relative paths used by the
script. -/
def joinPath (base rel : String) : String := base ++ "/" ++ rel

/-- `input_path.parent` of `pathlib` for the simple relative paths used
by the script: everything before the last slash, or `.` when there is no
slash. -/
def parentDir (p : String) : String :=
  let cs := p.toList
  if cs.contains '/' then
    String.mk (((cs.reverse.dropWhile (fun c => c ≠ '/')).drop 1).reverse)
  else "."

/-- `resolve_business_definition(ref, base_path)`: non-`file://` schemes
yield `None` silently; a missing file prints a warning naming the path
and yields `None`; otherwise the file is loaded (a parse failure is a
fatal error). -/
def resolve_business_definition (fs : FS) (ref : String) (base_path : String) :
    M (Option Yaml) :=
  if !strStartsWith ref "file://" then pure none
  else
    -- `ref.removeprefix("file://")`: the guard holds, so drop 7 characters
    let file_path := joinPath base_path (ref.drop 7)
    if (fs file_path).isNone then do
      warn ("Warning: Business definition not found: " ++ file_path)
      pure none
    else do
      let y ← load_yaml fs file_path
      pure (some y)

/-- The OpenAPI field mapping of `merge_properties`, in source order. -/
def openapiMapping : List (String × String) :=
  [("type", "type"),
   ("description", "description"),
   ("examples", "examples"),
   ("enum", "enum"),
   ("pattern", "pattern"),
   ("classification", "x-classification"),
   ("pii", "x-pii"),
   ("criticalDataElement", "x-criticalDataElement"),
   ("title", "title")]

/-- The ODCS field mapping inlined in `process_odcs_property` as six
`if` statements, in source order. -/
def odcsMapping : List (String × String) :=
  [("title", "businessName"),
   ("type", "logicalType"),
   ("description", "description"),
   ("classification", "classification"),
   ("examples", "examples"),
   ("criticalDataElement", "criticalDataElement")]

/-- One mapping entry of the merge:
`if source_key in source and target_key not in target:
target[target_key] = source[source_key]`, with Python's left-to-right
short-circuit evaluation. -/
def mergeField (source : Yaml) (target : Yaml) (p : String × String) :
    Except Err Yaml := do
  let inSrc ← pyContains source p.1
  if inSrc then do
    let inTgt ← pyContains target p.2
    if inTgt then pure target
    else do
      let v ← pyGet source p.1
      pySet target p.2 v
  else pure target

/-- `merge_properties(target, source)`: fold the OpenAPI mapping over the
target. -/
def merge_properties (target source : Yaml) : Except Err Yaml :=
  openapiMapping.foldlM (fun t p => mergeField source t p) target

/-- The six inlined ODCS merge `if` statements of
`process_odcs_property`, which perform exactly the `mergeField` step for
each entry of `odcsMapping` in order. -/
def odcs_merge (business_def : Yaml) (prop : Yaml) : Except Err Yaml :=
  odcsMapping.foldlM (fun t p => mergeField business_def t p) prop

/-- The `x-business-definition` block of `process_schema`:
`if 'x-business-definition' in schema:` resolve the reference and, if
the result is truthy, merge it into the node.  A non-string reference
value makes `ref.startswith` raise `AttributeError`. -/
def stepRef (fs : FS) (base_path : String) (kvs : List (String × Yaml)) :
    M (List (String × Yaml)) :=
  match lookup "x-business-definition" kvs with
  | none => pure kvs
  | some (.str ref) => do
    let business_def ← resolve_business_definition fs ref base_path
    match business_def with
    | some d =>
      if d.truthy then do
        let merged ← liftE (merge_properties (.obj kvs) d)
        match merged with
        | .obj kvs' => pure kvs'
        -- unreachable: merging into a dict yields a dict
        | _ => fatal (.typeError "unreachable")
      else pure kvs
    | none => pure kvs
  | some _ => fatal (.attributeError "startswith")

/-- The `properties` block of `process_schema`:
`if 'properties' in schema: for prop in schema['properties'].values():`
recurse into every value.  `.values()` on a non-dict raises
`AttributeError`. -/
def stepProps (recurse : Yaml → M Yaml) (kvs : List (String × Yaml)) :
    M (List (String × Yaml)) :=
  match lookup "properties" kvs with
  | none => pure kvs
  | some (.obj pkvs) => do
    let pkvs' ← pkvs.mapM (fun p => do
      let v' ← recurse p.2
      pure (p.1, v'))
    pure (setKey "properties" (.obj pkvs') kvs)
  | some _ => fatal (.attributeError "values")

/-- The `items` block of `process_schema`:
`if 'items' in schema: process_schema(schema['items'], base_path)`. -/
def stepItems (recurse : Yaml → M Yaml) (kvs : List (String × Yaml)) :
    M (List (String × Yaml)) :=
  match lookup "items" kvs with
  | none => pure kvs
  | some it => do
    let it' ← recurse it
    pure (setKey "items" it' kvs)

/-- A composition block of `process_schema` (used for `allOf`, `oneOf`
and `anyOf`): `if key in schema: for item in schema[key]:` recurse into
every element.  Iterating a dict yields its keys and iterating a string
yields its characters — both are no-op leaves and nothing is mutated;
other values are not iterable. -/
def stepComp (recurse : Yaml → M Yaml) (key : String) (kvs : List (String × Yaml)) :
    M (List (String × Yaml)) :=
  match lookup key kvs with
  | none => pure kvs
  | some (.arr xs) => do
    let xs' ← xs.mapM (fun x => recurse x)
    pure (setKey key (.arr xs') kvs)
  | some (.obj _) => pure kvs
  | some (.str _) => pure kvs
  | some _ => fatal (.typeError "not iterable")

/-- The body of `process_schema(schema, base_path)`, with the recursive
call abstracted as `recurse`.  The blocks run in source order and are
independent `if`s, not an `elif` chain; a node that is not a dict is a
no-op.  Each block sees the dict as mutated by the previous blocks,
exactly as the in-place Python code does. -/
def processStep (fs : FS) (base_path : String) (recurse : Yaml → M Yaml)
    (schema : Yaml) : M Yaml :=
  match schema with
  | .obj kvs => do
    let kvs1 ← stepRef fs base_path kvs
    let kvs2 ← stepProps recurse kvs1
    let kvs3 ← stepItems recurse kvs2
    let kvs4 ← stepComp recurse "allOf" kvs3
    let kvs5 ← stepComp recurse "oneOf" kvs4
    let kvs6 ← stepComp recurse "anyOf" kvs5
    pure (.obj kvs6)
  -- if not isinstance(schema, dict): return
  | other => pure other

/-- The recursion of `process_schema`, made structural through a fuel
parameter: one application of `processStep` per fuel unit.  The public
entry point `process_schema` supplies `Yaml.size schema`, which strictly
exceeds the depth of any chain of recursive calls, so the `0` branch
never answers; `processFuel_irrelevant` below proves the fuel does not
matter, and `process_schema_unfold` recovers the exact recursion
equation of the source. -/
def processFuel (fs : FS) (base_path : String) : Nat → Yaml → M Yaml
  | 0, schema => pure schema
  | fuel + 1, schema => processStep fs base_path (processFuel fs base_path fuel) schema

/-- `process_schema(schema, base_path)`: recursively resolve business
definitions in an OpenAPI-style schema node.  The returned value is the
node after the in-place mutations of the source. -/
def process_schema (fs : FS) (base_path : String) (schema : Yaml) : M Yaml :=
  processFuel fs base_path (Yaml.size schema) schema

/-- One iteration of the `for auth_def in prop['authoritativeDefinitions']`
loop of `process_odcs_property`: links whose `type` is not
`businessDefinition` or which carry no `url` are skipped; otherwise the
`url` is resolved and, if the result is truthy, the six ODCS merge `if`
statements run against the property. -/
def processAuthDef (fs : FS) (base_path : String) (prop : Yaml) (auth_def : Yaml) :
    M Yaml :=
  match auth_def with
  | .obj akvs =>
    if optEqStr (lookup "type" akvs) "businessDefinition" && hasKey "url" akvs then
      match lookup "url" akvs with
      | some (.str url) => do
        let business_def ← resolve_business_definition fs url base_path
        match business_def with
        | some d =>
          if d.truthy then do
            let prop' ← liftE (odcs_merge d prop)
            pure prop'
          else pure prop
        | none => pure prop
      -- `url.startswith` on a non-string url value
      | some _ => fatal (.attributeError "startswith")
      -- unreachable: the guard requires 'url' in auth_def
      | none => pure prop
    else pure prop
  -- `auth_def.get` on a non-dict link record
  | _ => fatal (.attributeError "get")

/-- `process_odcs_property(prop, base_path)`.  The loop iterates over the
list object read from the property before any merge; the merges never
touch the `authoritativeDefinitions` key (it is not in the target column
of `odcsMapping`), so folding over the snapshot is the in-place
behavior. -/
def process_odcs_property (fs : FS) (base_path : String) (prop : Yaml) : M Yaml := do
  let c ← liftE (pyContains prop "authoritativeDefinitions")
  if c then do
    let auths ← liftE (pyGet prop "authoritativeDefinitions")
    match auths with
    | .arr xs => xs.foldlM (fun pr a => processAuthDef fs base_path pr a) prop
    -- iterating a dict yields its keys and iterating a string yields its
    -- characters; `.get` on a string raises, so only emptiness passes
    | .obj okvs => if okvs.isEmpty then pure prop else fatal (.attributeError "get")
    | .str s => if s.isEmpty then pure prop else fatal (.attributeError "get")
    | _ => fatal (.typeError "not iterable")
  else pure prop

/-- The body of `if 'schema' in param: process_schema(param['schema'], ...)`
for one parameter object. -/
def processParam (fs : FS) (base_path : String) (param : Yaml) : M Yaml := do
  let c ← liftE (pyContains param "schema")
  if c then do
    let sch ← liftE (pyGet param "schema")
    let sch' ← process_schema fs base_path sch
    liftE (pySet param "schema" sch')
  else pure param

/-- `for param in method['parameters']: ...`: a list is iterated
elementwise; iterating a dict yields its keys and iterating a string
yields its characters, which are processed as (effect-free, immutable)
parameters; other values are not iterable. -/
def processParams (fs : FS) (base_path : String) (params : Yaml) : M Yaml :=
  match params with
  | .arr xs => do
    let xs' ← xs.mapM (fun x => processParam fs base_path x)
    pure (.arr xs')
  | .obj okvs => do
    let _ ← okvs.mapM (fun p => processParam fs base_path (.str p.1))
    pure (.obj okvs)
  | .str s => pure (.str s)
  | _ => fatal (.typeError "not iterable")

/-- `if isinstance(method, dict) and 'parameters' in method: ...` for one
method object of a path item. -/
def processMethod (fs : FS) (base_path : String) (method : Yaml) : M Yaml :=
  match method with
  | .obj mkvs =>
    match lookup "parameters" mkvs with
    | some params => do
      let params' ← processParams fs base_path params
      pure (.obj (setKey "parameters" params' mkvs))
    | none => pure (.obj mkvs)
  | other => pure other

/-- `for method in path.values(): ...` for one path item of `paths`. -/
def processPathItem (fs : FS) (base_path : String) (path : Yaml) : M Yaml :=
  match path with
  | .obj methodKvs => do
    let methodKvs' ← methodKvs.mapM (fun p => do
      let m' ← processMethod fs base_path p.2
      pure (p.1, m'))
    pure (.obj methodKvs')
  -- `.values()` on a non-dict
  | _ => fatal (.attributeError "values")

/-- `postprocess_openapi(input_path, output_path)`: load the document,
process every component schema and every parameter schema of every
operation, and (modelled by the returned value) write the result.  The
write happens only after the whole walk has finished, so a fatal error
anywhere yields `M.err` and no output document. -/
def postprocess_openapi (fs : FS) (input_path : String) : M Yaml := do
  let base_path := parentDir input_path
  let spec ← load_yaml fs input_path
  -- if 'components' in spec and 'schemas' in spec['components']:
  let spec1 ← do
    let c1 ← liftE (pyContains spec "components")
    if c1 then do
      let comps ← liftE (pyGet spec "components")
      let c2 ← liftE (pyContains comps "schemas")
      if c2 then do
        let schemas ← liftE (pyGet comps "schemas")
        match schemas with
        | .obj skvs => do
          let skvs' ← skvs.mapM (fun p => do
            let v' ← process_schema fs base_path p.2
            pure (p.1, v'))
          let comps' ← liftE (pySet comps "schemas" (.obj skvs'))
          liftE (pySet spec "components" comps')
        -- `.values()` on a non-dict
        | _ => fatal (.attributeError "values")
      else pure spec
    else pure spec
  -- if 'paths' in spec:
  let spec2 ← do
    let c3 ← liftE (pyContains spec1 "paths")
    if c3 then do
      let paths ← liftE (pyGet spec1 "paths")
      match paths with
      | .obj pathKvs => do
        let pathKvs' ← pathKvs.mapM (fun p => do
          let path' ← processPathItem fs base_path p.2
          pure (p.1, path'))
        liftE (pySet spec1 "paths" (.obj pathKvs'))
      -- `.values()` on a non-dict
      | _ => fatal (.attributeError "values")
    else pure spec1
  -- save_yaml(output_path, spec)
  pure spec2

/-- `postprocess_odcs(input_path, output_path)`: load the contract,
process every property of every schema object, and (modelled by the
returned value) write the result. -/
def postprocess_odcs (fs : FS) (input_path : String) : M Yaml := do
  let base_path := parentDir input_path
  let contract ← load_yaml fs input_path
  -- if 'schema' in contract:
  let contract1 ← do
    let c1 ← liftE (pyContains contract "schema")
    if c1 then do
      let schemaList ← liftE (pyGet contract "schema")
      match schemaList with
      | .arr objs => do
        let objs' ← objs.mapM (fun o => do
          -- if 'properties' in obj:
          let c2 ← liftE (pyContains o "properties")
          if c2 then do
            let props ← liftE (pyGet o "properties")
            match props with
            | .arr ps => do
              let ps' ← ps.mapM (fun pr => process_odcs_property fs base_path pr)
              liftE (pySet o "properties" (.arr ps'))
            -- iterating a dict yields its keys: each key string is
            -- processed as a property (substring membership test, and a
            -- TypeError on subscripting if it matches); strings are
            -- immutable, so the dict itself is unchanged
            | .obj pkvs => do
              let _ ← pkvs.mapM (fun p =>
                process_odcs_property fs base_path (.str p.1))
              pure o
            | .str _ => pure o
            | _ => fatal (.typeError "not iterable")
          else pure o)
        liftE (pySet contract "schema" (.arr objs'))
      -- iterating a dict yields its keys and iterating a string yields
      -- its characters: each is a (string) schema object with no
      -- 'properties' membership possible except as a substring
      | .obj okvs => do
        let _ ← okvs.mapM (fun p => do
          let c2 ← liftE (pyContains (Yaml.str p.1) "properties")
          if c2 then do
            let _ ← liftE (pyGet (Yaml.str p.1) "properties")
            pure ()
          else pure ())
        pure contract
      | .str _ => pure contract
      | _ => fatal (.typeError "not iterable")
    else pure contract
  -- save_yaml(output_path, contract)
  pure contract1

/-! ### Concrete fixtures used by the theorems -/

/-- `defs/order_id.yaml` of the end-to-end example. -/
def defOrderId : Yaml :=
  .obj [("title", .str "Order ID"), ("type", .str "string"), ("pii", .bool false)]

/-- A filesystem holding just the example definition file, relative to
the document directory `docs`. -/
def fsOrder : FS := fun p =>
  if p = "docs/defs/order_id.yaml" then some (.parsed defOrderId) else none

/-- A schema node referencing the example definition. -/
def refNode : Yaml :=
  .obj [("x-business-definition", .str "file://defs/order_id.yaml")]

/-- `refNode` after resolution and merging. -/
def resolvedRefNode : Yaml :=
  .obj [("x-business-definition", .str "file://defs/order_id.yaml"),
        ("type", .str "string"), ("x-pii", .bool false), ("title", .str "Order ID")]

/-- One nesting layer: a `properties` dict with a single entry. -/
def propsLayer (x : Yaml) : Yaml := .obj [("properties", .obj [("p", x)])]

/-- A reference node nested below `n` `properties` layers. -/
def nestedRef : Nat → Yaml
  | 0 => refNode
  | n + 1 => propsLayer (nestedRef n)

/-- The reference node resolved at depth `n`. -/
def nestedResolved : Nat → Yaml
  | 0 => resolvedRefNode
  | n + 1 => propsLayer (nestedResolved n)

/-- A node carrying a reference and all five traversal keys at once,
each child being a reference node of its own. -/
def allKeysNode : Yaml := .obj [
  ("x-business-definition", .str "file://defs/order_id.yaml"),
  ("properties", .obj [("a", refNode)]),
  ("items", refNode),
  ("allOf", .arr [refNode]),
  ("oneOf", .arr [refNode]),
  ("anyOf", .arr [refNode])]

/-- A reference nested along `properties → q → items → allOf[1] →
properties → r`. -/
def deepNode : Yaml := .obj [("properties", .obj [("q", .obj [("items", .obj [("allOf",
  .arr [.obj [], .obj [("properties", .obj [("r", refNode)])]])])])])]

/-- An OpenAPI document with one schema whose reference is dangling and
one that resolves. -/
def specMixed : Yaml := .obj [("components", .obj [("schemas", .obj [
  ("Bad", .obj [("x-business-definition", .str "file://defs/missing.yaml")]),
  ("Good", refNode)])])]

/-- Filesystem for `specMixed`: the input document and the one existing
definition file. -/
def fsMixed : FS := fun p =>
  if p = "docs/api.yaml" then some (.parsed specMixed)
  else if p = "docs/defs/order_id.yaml" then some (.parsed defOrderId)
  else none

/-- An OpenAPI document whose only schema references a malformed file. -/
def specBadDef : Yaml := .obj [("components", .obj [("schemas", .obj [
  ("Order", .obj [("x-business-definition", .str "file://defs/bad.yaml")])])])]

/-- An ODCS contract whose only property links a malformed file. -/
def contractBadDef : Yaml := .obj [("schema", .arr [.obj [("properties", .arr [
  .obj [("authoritativeDefinitions", .arr [
    .obj [("type", .str "businessDefinition"), ("url", .str "file://defs/bad.yaml")]])]])]])]

/-- Filesystem where both documents parse but the referenced definition
file exists and is malformed. -/
def fsBadDef : FS := fun p =>
  if p = "docs/api.yaml" then some (.parsed specBadDef)
  else if p = "docs/contract.yaml" then some (.parsed contractBadDef)
  else if p = "docs/defs/bad.yaml" then some .malformed
  else none

/-- A second definition file, for links that must be ignored. -/
def defOther : Yaml := .obj [("title", .str "OTHER"), ("description", .str "other desc")]

/-- An ODCS contract: the first property carries a non-business link, a
url-less business link and a proper business link; the second property
has a business link only inside a nested mapping. -/
def contractLinks : Yaml := .obj [("schema", .arr [.obj [("properties", .arr [
  .obj [("name", .str "order_id"), ("authoritativeDefinitions", .arr [
    .obj [("type", .str "jira"), ("url", .str "file://defs/other.yaml")],
    .obj [("type", .str "businessDefinition")],
    .obj [("type", .str "businessDefinition"), ("url", .str "file://defs/order_id.yaml")]])],
  .obj [("name", .str "plain"), ("nested", .obj [("authoritativeDefinitions", .arr [
    .obj [("type", .str "businessDefinition"), ("url", .str "file://defs/order_id.yaml")]])])]
  ])]])]

/-- Filesystem for `contractLinks`. -/
def fsLinks : FS := fun p =>
  if p = "docs/contract.yaml" then some (.parsed contractLinks)
  else if p = "docs/defs/order_id.yaml" then some (.parsed defOrderId)
  else if p = "docs/defs/other.yaml" then some (.parsed defOther)
  else none

/-- First of two overlapping definitions. -/
def defA : Yaml := .obj [("title", .str "A Title"), ("type", .str "string")]

/-- Second of two overlapping definitions. -/
def defB : Yaml := .obj [("title", .str "B Title"), ("description", .str "B desc")]

/-- Business-definition link to `defA`. -/
def linkA : Yaml := .obj [("type", .str "businessDefinition"), ("url", .str "file://defs/a.yaml")]

/-- Business-definition link to `defB`. -/
def linkB : Yaml := .obj [("type", .str "businessDefinition"), ("url", .str "file://defs/b.yaml")]

/-- Filesystem holding the two overlapping definitions. -/
def fsAB : FS := fun p =>
  if p = "docs/defs/a.yaml" then some (.parsed defA)
  else if p = "docs/defs/b.yaml" then some (.parsed defB)
  else none

/-- A filesystem whose only definition file exists but parses to `null`
(e.g. an empty YAML file). -/
def fsNull : FS := fun p =>
  if p = "docs/defs/empty.yaml" then some (.parsed .null) else none

/-- The fields of a business definition carrying every recognized source
field plus two unrecognized ones (`id`, `owner`). -/
def defFullKvs : List (String × Yaml) := [
  ("title", .str "Order ID"),
  ("type", .str "string"),
  ("description", .str "The id"),
  ("classification", .str "internal"),
  ("examples", .arr [.str "ord-1"]),
  ("criticalDataElement", .bool true),
  ("pattern", .str "ord-[0-9]+"),
  ("enum", .arr [.str "a", .str "b"]),
  ("pii", .bool false),
  ("id", .str "bd-1"),
  ("owner", .str "team-orders")]

/-- A business definition carrying every recognized source field. -/
def defFull : Yaml := .obj defFullKvs

/-! ### Lemmas: the `M` monad -/

theorem M_bind_err (e : Err) (f : α → M β) : (M.err e : M α) >>= f = M.err e := rfl

theorem M_pure_def (a : α) : (pure a : M α) = M.ok a [] := rfl

@[simp] theorem M_bind_ok_eq (a : α) (ds : List String) (f : α → M β) :
    ((M.ok a ds : M α) >>= f) = M.withWarnings ds (f a) := by
  show (match f a with
    | Except.error e => (Except.error e : M β)
    | Except.ok (b, ds2) => Except.ok (b, ds ++ ds2)) = M.withWarnings ds (f a)
  cases hfa : f a with
  | error e => rfl
  | ok p => cases p with | mk b ds2 => rfl

@[simp] theorem M_withWarnings_nil (x : M α) : M.withWarnings [] x = x := by
  cases x with
  | error e => rfl
  | ok p => cases p with | mk a ds => show Except.ok (a, [] ++ ds) = _ ; simp

@[simp] theorem M_withWarnings_ok (ds ds2 : List String) (a : α) :
    M.withWarnings ds (M.ok a ds2) = M.ok a (ds ++ ds2) := rfl

@[simp] theorem M_withWarnings_err (ds : List String) (e : Err) :
    M.withWarnings ds (M.err e : M α) = M.err e := rfl

@[simp] theorem M_fatal_def (e : Err) : (fatal e : M α) = M.err e := rfl

@[simp] theorem M_warn_def (s : String) : warn s = M.ok () [s] := rfl

@[simp] theorem M_liftE_ok (a : α) : liftE (Except.ok a) = M.ok a [] := rfl

@[simp] theorem M_liftE_err (e : Err) : liftE (Except.error e : Except Err α) = M.err e := rfl

/-! ### Lemmas: dict operations -/

theorem hasKey_nil (k : String) : hasKey k [] = false := rfl

theorem lookup_isSome_iff_hasKey (k : String) (kvs : List (String × Yaml)) :
    (lookup k kvs).isSome = hasKey k kvs := by
  induction kvs with
  | nil => rfl
  | cons p rest ih =>
    cases p with
    | mk k' v =>
      by_cases h : k' = k
      · simp [lookup, hasKey, h]
      · simp [lookup, hasKey, h, ih]

theorem hasKey_of_lookup_eq_some (k : String) (kvs : List (String × Yaml)) (v : Yaml)
    (h : lookup k kvs = some v) : hasKey k kvs = true := by
  rw [← lookup_isSome_iff_hasKey, h]
  rfl

theorem lookup_eq_none_of_hasKey_eq_false (k : String) (kvs : List (String × Yaml))
    (h : hasKey k kvs = false) : lookup k kvs = none := by
  cases hl : lookup k kvs with
  | none => rfl
  | some v => rw [hasKey_of_lookup_eq_some k kvs v hl] at h; cases h

theorem lookup_setKey_self (k : String) (v : Yaml) (kvs : List (String × Yaml)) :
    lookup k (setKey k v kvs) = some v := by
  induction kvs with
  | nil => simp [setKey, lookup]
  | cons p rest ih =>
    cases p with
    | mk k' v' =>
      by_cases h : k' = k
      · simp [setKey, lookup, h]
      · simp [setKey, lookup, h, ih]

theorem lookup_setKey_ne (k k2 : String) (v : Yaml) (kvs : List (String × Yaml))
    (h : k2 ≠ k) : lookup k (setKey k2 v kvs) = lookup k kvs := by
  induction kvs with
  | nil => simp [setKey, lookup, h]
  | cons p rest ih =>
    cases p with
    | mk k' v' =>
      by_cases h2 : k' = k2
      · simp [setKey, lookup, h2, h]
      · simp [setKey, lookup, h2, ih]

theorem hasKey_setKey_ne (k k2 : String) (v : Yaml) (kvs : List (String × Yaml))
    (h : k2 ≠ k) : hasKey k (setKey k2 v kvs) = hasKey k kvs := by
  rw [← lookup_isSome_iff_hasKey, ← lookup_isSome_iff_hasKey, lookup_setKey_ne k k2 v kvs h]

/-! ### Lemmas: the `Except` monad and `M` laws -/

@[simp] theorem E_bind_ok (a : α) (f : α → Except Err β) :
    (Except.ok a : Except Err α) >>= f = f a := rfl

@[simp] theorem E_bind_err (e : Err) (f : α → Except Err β) :
    (Except.error e : Except Err α) >>= f = Except.error e := rfl

theorem E_pure_def (a : α) : (pure a : Except Err α) = Except.ok a := rfl

theorem M_ok_inj {α : Type} {a b : α} {ds1 ds2 : List String}
    (h : (M.ok a ds1 : M α) = M.ok b ds2) : a = b ∧ ds1 = ds2 := by
  have h2 := Except.ok.inj h
  exact ⟨congrArg Prod.fst h2, congrArg Prod.snd h2⟩

theorem M_id_map {α : Type} (x : M α) : id <$> x = x := by
  cases x with
  | error e => rfl
  | ok p =>
    cases p with
    | mk a ds => show Except.ok (a, ds ++ []) = Except.ok (a, ds); simp

theorem M_pure_bind {α β : Type} (a : α) (f : α → M β) : (pure a : M α) >>= f = f a := by
  rw [M_pure_def, M_bind_ok_eq, M_withWarnings_nil]

theorem M_bind_assoc2 {α β γ : Type} (x : M α) (f : α → M β) (g : β → M γ) :
    x >>= f >>= g = x >>= fun a => f a >>= g := by
  cases x with
  | error e => rfl
  | ok p =>
    cases p with
    | mk a ds =>
      show ((M.ok a ds : M α) >>= f) >>= g = (M.ok a ds : M α) >>= fun a => f a >>= g
      rw [M_bind_ok_eq, M_bind_ok_eq]
      cases hfa : f a with
      | error e => rfl
      | ok p2 =>
        cases p2 with
        | mk b ds2 =>
          show ((M.ok b (ds ++ ds2) : M β) >>= g) = M.withWarnings ds ((M.ok b ds2 : M β) >>= g)
          rw [M_bind_ok_eq, M_bind_ok_eq]
          cases hgb : g b with
          | error e => rfl
          | ok p3 =>
            cases p3 with
            | mk c ds3 =>
              show Except.ok (c, (ds ++ ds2) ++ ds3) = Except.ok (c, ds ++ (ds2 ++ ds3))
              rw [List.append_assoc]

instance : LawfulMonad M := LawfulMonad.mk' M M_id_map M_pure_bind M_bind_assoc2

/-! ### Lemmas: the merge engine -/

theorem mergeField_obj_preserve (source : Yaml) (tkvs : List (String × Yaml))
    (p : String × String) (F : String) (v : Yaml)
    (hF : lookup F tkvs = some v) (y : Yaml)
    (hm : mergeField source (.obj tkvs) p = .ok y) :
    ∃ tkvs', y = .obj tkvs' ∧ lookup F tkvs' = some v := by
  cases hc : pyContains source p.1 with
  | error e => simp [mergeField, hc] at hm
  | ok b =>
    cases b with
    | false =>
      simp [mergeField, hc, E_pure_def] at hm
      exact ⟨tkvs, hm.symm, hF⟩
    | true =>
      have hin : pyContains (Yaml.obj tkvs) p.2 = .ok (hasKey p.2 tkvs) := rfl
      by_cases hk : hasKey p.2 tkvs
      · simp [mergeField, hc, hin, hk, E_pure_def] at hm
        exact ⟨tkvs, hm.symm, hF⟩
      · cases hg : pyGet source p.1 with
        | error e => simp [mergeField, hc, hin, hk, hg] at hm
        | ok w =>
          have hset : pySet (Yaml.obj tkvs) p.2 w = .ok (.obj (setKey p.2 w tkvs)) := rfl
          simp [mergeField, hc, hin, hk, hg, hset] at hm
          refine ⟨setKey p.2 w tkvs, hm.symm, ?_⟩
          have hne : p.2 ≠ F := by
            intro he
            rw [he] at hk
            exact hk (hasKey_of_lookup_eq_some F tkvs v hF)
          rw [lookup_setKey_ne F p.2 w tkvs hne]
          exact hF

theorem foldlM_mergeField_preserve (source : Yaml) (mapping : List (String × String)) :
    ∀ (tkvs : List (String × Yaml)) (y : Yaml) (F : String) (v : Yaml),
      lookup F tkvs = some v →
      mapping.foldlM (fun t p => mergeField source t p) (Yaml.obj tkvs) = .ok y →
      ∃ tkvs', y = .obj tkvs' ∧ lookup F tkvs' = some v := by
  induction mapping with
  | nil =>
    intro tkvs y F v hF hm
    simp [List.foldlM_nil, E_pure_def] at hm
    exact ⟨tkvs, hm.symm, hF⟩
  | cons p ps ih =>
    intro tkvs y F v hF hm
    rw [List.foldlM_cons] at hm
    cases hmf : mergeField source (.obj tkvs) p with
    | error e => rw [hmf] at hm; simp at hm
    | ok t' =>
      rw [hmf] at hm
      simp at hm
      obtain ⟨tkvs1, rfl, hF1⟩ := mergeField_obj_preserve source tkvs p F v hF t' hmf
      exact ih tkvs1 y F v hF1 hm

theorem foldlM_mergeField_spec (skvs : List (String × Yaml)) (mapping : List (String × String)) :
    ∀ (tkvs : List (String × Yaml)),
      (mapping.map Prod.snd).Nodup →
      (∀ p ∈ mapping, hasKey p.2 tkvs = false) →
      ∃ rkvs, mapping.foldlM (fun t p => mergeField (.obj skvs) t p) (Yaml.obj tkvs) =
          .ok (.obj rkvs) ∧
        (∀ p ∈ mapping, ∀ w, lookup p.1 skvs = some w → lookup p.2 rkvs = some w) ∧
        (∀ k, (∀ p ∈ mapping, p.2 ≠ k) → lookup k rkvs = lookup k tkvs) := by
  induction mapping with
  | nil =>
    intro tkvs _ _
    exact ⟨tkvs, by simp [List.foldlM_nil, E_pure_def], by simp, fun k _ => rfl⟩
  | cons p ps ih =>
    intro tkvs hnd habs
    have hnd' : (ps.map Prod.snd).Nodup := by
      rw [List.map_cons] at hnd
      exact hnd.of_cons
    have hmem : p.2 ∉ ps.map Prod.snd := by
      rw [List.map_cons] at hnd
      exact (List.nodup_cons.mp hnd).1
    have habs' : ∀ q ∈ ps, hasKey q.2 tkvs = false := fun q hq => habs q (List.mem_cons_of_mem p hq)
    have hkt : hasKey p.2 tkvs = false := habs p (List.mem_cons_self p ps)
    cases hs : hasKey p.1 skvs with
    | false =>
      have hstep : mergeField (Yaml.obj skvs) (Yaml.obj tkvs) p = .ok (.obj tkvs) := by
        simp [mergeField, pyContains, hs, E_pure_def]
      obtain ⟨rkvs, hfold, h1, h2⟩ := ih tkvs hnd' habs'
      refine ⟨rkvs, ?_, ?_, ?_⟩
      · rw [List.foldlM_cons, hstep, E_bind_ok, hfold]
      · intro q hq w hw
        rcases List.mem_cons.mp hq with hq1 | hq2
        · subst hq1
          rw [lookup_eq_none_of_hasKey_eq_false q.1 skvs hs] at hw
          cases hw
        · exact h1 q hq2 w hw
      · intro k hk
        exact h2 k (fun q hq => hk q (List.mem_cons_of_mem p hq))
    | true =>
      have hlk : ∃ w0, lookup p.1 skvs = some w0 := by
        have hiff := lookup_isSome_iff_hasKey p.1 skvs
        rw [hs] at hiff
        cases hl : lookup p.1 skvs with
        | none => rw [hl] at hiff; cases hiff
        | some w0 => exact ⟨w0, rfl⟩
      obtain ⟨w0, hw0⟩ := hlk
      have hstep : mergeField (Yaml.obj skvs) (Yaml.obj tkvs) p =
          .ok (.obj (setKey p.2 w0 tkvs)) := by
        simp [mergeField, pyContains, hs, hkt, pyGet, hw0, pySet, E_pure_def]
      have habs2 : ∀ q ∈ ps, hasKey q.2 (setKey p.2 w0 tkvs) = false := by
        intro q hq
        have hne : p.2 ≠ q.2 := by
          intro he
          exact hmem (he ▸ List.mem_map_of_mem Prod.snd hq)
        rw [hasKey_setKey_ne q.2 p.2 w0 tkvs hne]
        exact habs' q hq
      obtain ⟨rkvs, hfold, h1, h2⟩ := ih (setKey p.2 w0 tkvs) hnd' habs2
      refine ⟨rkvs, ?_, ?_, ?_⟩
      · rw [List.foldlM_cons, hstep, E_bind_ok, hfold]
      · intro q hq w hw
        rcases List.mem_cons.mp hq with hq1 | hq2
        · subst hq1
          rw [hw0] at hw
          cases hw
          have hnotin : ∀ r ∈ ps, r.2 ≠ q.2 := by
            intro r hr he
            exact hmem (he ▸ List.mem_map_of_mem Prod.snd hr)
          rw [h2 q.2 hnotin, lookup_setKey_self]
        · exact h1 q hq2 w hw
      · intro k hk
        have hne : p.2 ≠ k := hk p (List.mem_cons_self p ps)
        rw [h2 k (fun q hq => hk q (List.mem_cons_of_mem p hq)),
          lookup_setKey_ne k p.2 w0 tkvs hne]

/-! ### Lemmas: the resolver and the walkers on single nodes -/

theorem resolve_nonfile (fs : FS) (ref base : String)
    (hs : strStartsWith ref "file://" = false) :
    resolve_business_definition fs ref base = M.ok none [] := by
  simp [resolve_business_definition, hs, M_pure_def]

theorem process_schema_nonfile (fs : FS) (base ref : String) (kvs : List (String × Yaml))
    (href : lookup "x-business-definition" kvs = some (.str ref))
    (hs : strStartsWith ref "file://" = false)
    (hp : lookup "properties" kvs = none) (hi : lookup "items" kvs = none)
    (ha : lookup "allOf" kvs = none) (ho : lookup "oneOf" kvs = none)
    (hn : lookup "anyOf" kvs = none) :
    process_schema fs base (.obj kvs) = M.ok (.obj kvs) [] := by
  simp [process_schema, Yaml.size, processFuel, processStep, stepRef, stepProps, stepItems,
    stepComp, href, hp, hi, ha, ho, hn, resolve_business_definition, hs, M_pure_def]

theorem resolve_missing (fs : FS) (ref base : String)
    (hs : strStartsWith ref "file://" = true)
    (hmiss : fs (joinPath base (ref.drop 7)) = none) :
    resolve_business_definition fs ref base =
      M.ok none ["Warning: Business definition not found: " ++ joinPath base (ref.drop 7)] := by
  simp [resolve_business_definition, hs, hmiss, M_pure_def]

theorem process_schema_missing (fs : FS) (base ref : String) (kvs : List (String × Yaml))
    (href : lookup "x-business-definition" kvs = some (.str ref))
    (hs : strStartsWith ref "file://" = true)
    (hmiss : fs (joinPath base (ref.drop 7)) = none)
    (hp : lookup "properties" kvs = none) (hi : lookup "items" kvs = none)
    (ha : lookup "allOf" kvs = none) (ho : lookup "oneOf" kvs = none)
    (hn : lookup "anyOf" kvs = none) :
    process_schema fs base (.obj kvs) =
      M.ok (.obj kvs) ["Warning: Business definition not found: " ++ joinPath base (ref.drop 7)] := by
  simp [process_schema, Yaml.size, processFuel, processStep, stepRef, stepProps, stepItems,
    stepComp, href, hp, hi, ha, ho, hn, resolve_business_definition, hs, hmiss, M_pure_def]

theorem process_schema_falsy (fs : FS) (base ref : String) (kvs : List (String × Yaml))
    (d : Yaml)
    (href : lookup "x-business-definition" kvs = some (.str ref))
    (hs : strStartsWith ref "file://" = true)
    (hfile : fs (joinPath base (ref.drop 7)) = some (.parsed d))
    (hfalsy : d.truthy = false)
    (hp : lookup "properties" kvs = none) (hi : lookup "items" kvs = none)
    (ha : lookup "allOf" kvs = none) (ho : lookup "oneOf" kvs = none)
    (hn : lookup "anyOf" kvs = none) :
    process_schema fs base (.obj kvs) = M.ok (.obj kvs) [] := by
  simp [process_schema, Yaml.size, processFuel, processStep, stepRef, stepProps, stepItems,
    stepComp, href, hp, hi, ha, ho, hn, resolve_business_definition, load_yaml, hs, hfile,
    hfalsy, M_pure_def]

theorem processAuthDef_skip (fs : FS) (base : String) (prop : Yaml)
    (akvs : List (String × Yaml))
    (hgate : (optEqStr (lookup "type" akvs) "businessDefinition" && hasKey "url" akvs) = false) :
    processAuthDef fs base prop (.obj akvs) = M.ok prop [] := by
  simp [processAuthDef, hgate, M_pure_def]

theorem processAuthDef_nonfile (fs : FS) (base url : String) (prop : Yaml)
    (akvs : List (String × Yaml))
    (ht : optEqStr (lookup "type" akvs) "businessDefinition" = true)
    (hurl : lookup "url" akvs = some (.str url))
    (hs : strStartsWith url "file://" = false) :
    processAuthDef fs base prop (.obj akvs) = M.ok prop [] := by
  have hk : hasKey "url" akvs = true := hasKey_of_lookup_eq_some "url" akvs _ hurl
  simp [processAuthDef, ht, hk, hurl, resolve_business_definition, hs, M_pure_def]

theorem processAuthDef_missing (fs : FS) (base url : String) (prop : Yaml)
    (akvs : List (String × Yaml))
    (ht : optEqStr (lookup "type" akvs) "businessDefinition" = true)
    (hurl : lookup "url" akvs = some (.str url))
    (hs : strStartsWith url "file://" = true)
    (hmiss : fs (joinPath base (url.drop 7)) = none) :
    processAuthDef fs base prop (.obj akvs) =
      M.ok prop ["Warning: Business definition not found: " ++ joinPath base (url.drop 7)] := by
  have hk : hasKey "url" akvs = true := hasKey_of_lookup_eq_some "url" akvs _ hurl
  simp [processAuthDef, ht, hk, hurl, resolve_business_definition, hs, hmiss, M_pure_def]

theorem processAuthDef_falsy (fs : FS) (base url : String) (prop : Yaml)
    (akvs : List (String × Yaml)) (d : Yaml)
    (ht : optEqStr (lookup "type" akvs) "businessDefinition" = true)
    (hurl : lookup "url" akvs = some (.str url))
    (hs : strStartsWith url "file://" = true)
    (hfile : fs (joinPath base (url.drop 7)) = some (.parsed d))
    (hfalsy : d.truthy = false) :
    processAuthDef fs base prop (.obj akvs) = M.ok prop [] := by
  have hk : hasKey "url" akvs = true := hasKey_of_lookup_eq_some "url" akvs _ hurl
  simp [processAuthDef, ht, hk, hurl, resolve_business_definition, load_yaml, hs, hfile,
    hfalsy, M_pure_def]

theorem postprocess_malformed_source (fs : FS) (p : String)
    (h : fs p = some .malformed) :
    postprocess_openapi fs p = M.err (.parseError p) ∧
    postprocess_odcs fs p = M.err (.parseError p) := by
  constructor
  · simp [postprocess_openapi, load_yaml, h, M_bind_err]
  · simp [postprocess_odcs, load_yaml, h, M_bind_err]

/-! ### Lemmas: preservation of present fields through the ODCS loop -/

theorem processAuthDef_preserve (fs : FS) (base : String) (a : Yaml)
    (pkvs : List (String × Yaml)) (F : String) (v : Yaml) (y : Yaml) (ds : List String)
    (hF : lookup F pkvs = some v)
    (hm : processAuthDef fs base (.obj pkvs) a = M.ok y ds) :
    ∃ pkvs', y = .obj pkvs' ∧ lookup F pkvs' = some v := by
  cases a with
  | obj akvs =>
    by_cases hgate : (optEqStr (lookup "type" akvs) "businessDefinition" && hasKey "url" akvs) = true
    · cases hurl : lookup "url" akvs with
      | none =>
        simp [processAuthDef, hgate, hurl, M_pure_def] at hm
        exact ⟨pkvs, (M_ok_inj hm).1.symm, hF⟩
      | some u =>
        cases u with
        | str url =>
          cases hres : resolve_business_definition fs url base with
          | error e => simp [processAuthDef, hgate, hurl, hres, M_bind_err] at hm
          | ok pr =>
            cases pr with
            | mk r ds1 =>
              cases r with
              | none =>
                simp [processAuthDef, hgate, hurl, hres, M_pure_def, M.withWarnings] at hm
                exact ⟨pkvs, (M_ok_inj hm).1.symm, hF⟩
              | some d =>
                cases hd : d.truthy with
                | false =>
                  simp [processAuthDef, hgate, hurl, hres, hd, M_pure_def, M.withWarnings] at hm
                  exact ⟨pkvs, (M_ok_inj hm).1.symm, hF⟩
                | true =>
                  cases hom : odcs_merge d (.obj pkvs) with
                  | error e =>
                    simp [processAuthDef, hgate, hurl, hres, hd, hom, M.withWarnings] at hm
                  | ok m =>
                    simp [processAuthDef, hgate, hurl, hres, hd, hom, M_pure_def,
                      M.withWarnings] at hm
                    obtain ⟨pkvs', rfl, hF'⟩ :=
                      foldlM_mergeField_preserve d odcsMapping pkvs m F v hF hom
                    exact ⟨pkvs', (M_ok_inj hm).1.symm, hF'⟩
        | null => simp [processAuthDef, hgate, hurl] at hm
        | bool b => simp [processAuthDef, hgate, hurl] at hm
        | int n => simp [processAuthDef, hgate, hurl] at hm
        | arr xs => simp [processAuthDef, hgate, hurl] at hm
        | obj kvs2 => simp [processAuthDef, hgate, hurl] at hm
    · simp [processAuthDef, hgate, M_pure_def] at hm
      exact ⟨pkvs, (M_ok_inj hm).1.symm, hF⟩
  | null => simp [processAuthDef] at hm
  | bool b => simp [processAuthDef] at hm
  | str s => simp [processAuthDef] at hm
  | int n => simp [processAuthDef] at hm
  | arr xs => simp [processAuthDef] at hm

theorem foldlM_processAuthDef_preserve (fs : FS) (base : String) (xs : List Yaml) :
    ∀ (pkvs : List (String × Yaml)) (F : String) (v : Yaml) (y : Yaml) (ds : List String),
      lookup F pkvs = some v →
      xs.foldlM (fun pr a => processAuthDef fs base pr a) (Yaml.obj pkvs) = M.ok y ds →
      ∃ pkvs', y = .obj pkvs' ∧ lookup F pkvs' = some v := by
  induction xs with
  | nil =>
    intro pkvs F v y ds hF hm
    rw [List.foldlM_nil] at hm
    exact ⟨pkvs, (M_ok_inj hm).1.symm, hF⟩
  | cons a as ih =>
    intro pkvs F v y ds hF hm
    rw [List.foldlM_cons] at hm
    cases hhd : processAuthDef fs base (Yaml.obj pkvs) a with
    | error e => rw [hhd] at hm; rw [M_bind_err] at hm; cases hm
    | ok pr =>
      cases pr with
      | mk t' ds1 =>
        rw [hhd] at hm
        rw [M_bind_ok_eq] at hm
        cases hrest : as.foldlM (fun pr a => processAuthDef fs base pr a) t' with
        | error e => rw [hrest] at hm; cases hm
        | ok pr2 =>
          cases pr2 with
          | mk y2 ds2 =>
            rw [hrest] at hm
            have hy : y2 = y := (M_ok_inj hm).1
            obtain ⟨pkvs1, rfl, hF1⟩ := processAuthDef_preserve fs base a pkvs F v t' ds1 hF hhd
            obtain ⟨pkvs', hy2, hF'⟩ := ih pkvs1 F v y2 ds2 hF1 hrest
            exact ⟨pkvs', hy ▸ hy2, hF'⟩

theorem foldlM_processAuthDef_prefix_wins (fs : FS) (base : String)
    (xs1 xs2 : List Yaml) (pkvs pkvs1 : List (String × Yaml)) (F : String) (v : Yaml)
    (y : Yaml) (ds1 ds : List String)
    (h1 : xs1.foldlM (fun pr a => processAuthDef fs base pr a) (Yaml.obj pkvs) =
      M.ok (.obj pkvs1) ds1)
    (hF : lookup F pkvs1 = some v)
    (h2 : (xs1 ++ xs2).foldlM (fun pr a => processAuthDef fs base pr a) (Yaml.obj pkvs) =
      M.ok y ds) :
    pyGet y F = .ok v := by
  rw [List.foldlM_append, h1, M_bind_ok_eq] at h2
  cases hrest : xs2.foldlM (fun pr a => processAuthDef fs base pr a) (Yaml.obj pkvs1) with
  | error e => rw [hrest] at h2; cases h2
  | ok pr2 =>
    cases pr2 with
    | mk y2 ds2 =>
      rw [hrest] at h2
      have hy : y2 = y := (M_ok_inj h2).1
      obtain ⟨pkvs', hy2, hF'⟩ :=
        foldlM_processAuthDef_preserve fs base xs2 pkvs1 F v y2 ds2 hF hrest
      rw [← hy, hy2]
      simp [pyGet, hF']

/-! ### Lemmas: the reference resolved at arbitrary nesting depth -/

theorem processFuel_nestedRef (n : Nat) :
    ∀ f' : Nat, n < f' →
      processFuel fsOrder "docs" f' (nestedRef n) = M.ok (nestedResolved n) [] := by
  induction n with
  | zero =>
    intro f' hf
    obtain ⟨k, rfl⟩ : ∃ k, f' = k + 1 := ⟨f' - 1, by omega⟩
    rfl
  | succ n ih =>
    intro f' hf
    obtain ⟨k, rfl⟩ : ∃ k, f' = k + 1 := ⟨f' - 1, by omega⟩
    have hk : n < k := by omega
    have ihk := ih k hk
    show processFuel fsOrder "docs" (k + 1) (propsLayer (nestedRef n)) =
      M.ok (propsLayer (nestedResolved n)) []
    simp [processFuel, processStep, stepRef, stepProps, stepItems, stepComp, propsLayer,
      lookup, setKey, List.mapM, List.mapM.loop, ihk, M_pure_def, M_bind_err]

theorem size_nestedRef (n : Nat) : Yaml.size (nestedRef n) = 4 * n + 3 := by
  induction n with
  | zero => rfl
  | succ n ih =>
    show Yaml.size (propsLayer (nestedRef n)) = 4 * (n + 1) + 3
    simp [propsLayer, Yaml.size, Yaml.sizeDict, ih]
    omega

theorem process_schema_nestedRef (n : Nat) :
    process_schema fsOrder "docs" (nestedRef n) = M.ok (nestedResolved n) [] := by
  rw [process_schema, size_nestedRef]
  exact processFuel_nestedRef n (4 * n + 3) (by omega)

/-! ### Lemmas: sizes, congruence, and fuel irrelevance -/

theorem Yaml.size_pos (y : Yaml) : 1 ≤ Yaml.size y := by
  cases y with
  | null => exact le_refl 1
  | bool b => exact le_refl 1
  | str s => exact le_refl 1
  | int n => exact le_refl 1
  | arr xs => show 1 ≤ Yaml.sizeList xs + 1; omega
  | obj kvs => show 1 ≤ Yaml.sizeDict kvs + 1; omega

theorem sizeDict_lookup (k : String) (kvs : List (String × Yaml)) (v : Yaml)
    (h : lookup k kvs = some v) : Yaml.size v ≤ Yaml.sizeDict kvs := by
  induction kvs with
  | nil => cases h
  | cons p rest ih =>
    cases p with
    | mk k' v' =>
      show Yaml.size v ≤ Yaml.size v' + Yaml.sizeDict rest + 1
      by_cases he : k' = k
      · rw [lookup, if_pos he] at h
        cases h
        omega
      · rw [lookup, if_neg he] at h
        have := ih h
        omega

theorem sizeDict_mem (pkvs : List (String × Yaml)) (p : String × Yaml) (h : p ∈ pkvs) :
    Yaml.size p.2 ≤ Yaml.sizeDict pkvs := by
  induction pkvs with
  | nil => cases h
  | cons q rest ih =>
    cases q with
    | mk k' v' =>
      show Yaml.size p.2 ≤ Yaml.size v' + Yaml.sizeDict rest + 1
      rcases List.mem_cons.mp h with h1 | h2
      · rw [h1]
        show Yaml.size v' ≤ Yaml.size v' + Yaml.sizeDict rest + 1
        omega
      · have := ih h2
        omega

theorem sizeList_mem (xs : List Yaml) (x : Yaml) (h : x ∈ xs) :
    Yaml.size x ≤ Yaml.sizeList xs := by
  induction xs with
  | nil => cases h
  | cons y rest ih =>
    show Yaml.size x ≤ Yaml.size y + Yaml.sizeList rest + 1
    rcases List.mem_cons.mp h with h1 | h2
    · rw [h1]
      omega
    · have := ih h2
      omega

theorem M_bind_congr {α β : Type} (x : M α) (f g : α → M β)
    (h : ∀ a ds, x = M.ok a ds → f a = g a) : x >>= f = x >>= g := by
  cases x with
  | error e => rfl
  | ok p =>
    cases p with
    | mk a ds =>
      show ((M.ok a ds : M α) >>= f) = ((M.ok a ds : M α) >>= g)
      rw [M_bind_ok_eq, M_bind_ok_eq, h a ds rfl]

theorem mapM_loop_congr {α β : Type} (f g : α → M β) (xs : List α)
    (h : ∀ x ∈ xs, f x = g x) :
    ∀ acc : List β, List.mapM.loop f xs acc = List.mapM.loop g xs acc := by
  induction xs with
  | nil => intro acc; rfl
  | cons x rest ih =>
    intro acc
    show (f x >>= fun b => List.mapM.loop f rest (b :: acc)) =
      (g x >>= fun b => List.mapM.loop g rest (b :: acc))
    rw [h x (List.mem_cons_self x rest)]
    exact congrArg _ (funext fun b => ih (fun y hy => h y (List.mem_cons_of_mem x hy)) (b :: acc))

theorem mapM_congr {α β : Type} (f g : α → M β) (xs : List α)
    (h : ∀ x ∈ xs, f x = g x) : xs.mapM f = xs.mapM g :=
  mapM_loop_congr f g xs h []



theorem mergeField_obj_other (source : Yaml) (tkvs : List (String × Yaml))
    (p : String × String) (y : Yaml) (hm : mergeField source (.obj tkvs) p = .ok y) :
    ∃ tkvs', y = .obj tkvs' ∧ ∀ k, p.2 ≠ k → lookup k tkvs' = lookup k tkvs := by
  cases hc : pyContains source p.1 with
  | error e => simp [mergeField, hc] at hm
  | ok b =>
    cases b with
    | false =>
      simp [mergeField, hc, E_pure_def] at hm
      exact ⟨tkvs, hm.symm, fun k _ => rfl⟩
    | true =>
      have hin : pyContains (Yaml.obj tkvs) p.2 = .ok (hasKey p.2 tkvs) := rfl
      by_cases hk : hasKey p.2 tkvs
      · simp [mergeField, hc, hin, hk, E_pure_def] at hm
        exact ⟨tkvs, hm.symm, fun k _ => rfl⟩
      · cases hg : pyGet source p.1 with
        | error e => simp [mergeField, hc, hin, hk, hg] at hm
        | ok w =>
          have hset : pySet (Yaml.obj tkvs) p.2 w = .ok (.obj (setKey p.2 w tkvs)) := rfl
          simp [mergeField, hc, hin, hk, hg, hset] at hm
          exact ⟨setKey p.2 w tkvs, hm.symm,
            fun k hne => lookup_setKey_ne k p.2 w tkvs hne⟩

theorem foldlM_mergeField_other (source : Yaml) (mapping : List (String × String)) :
    ∀ (tkvs : List (String × Yaml)) (y : Yaml),
      mapping.foldlM (fun t p => mergeField source t p) (Yaml.obj tkvs) = .ok y →
      ∃ tkvs', y = .obj tkvs' ∧
        ∀ k, (∀ p ∈ mapping, p.2 ≠ k) → lookup k tkvs' = lookup k tkvs := by
  induction mapping with
  | nil =>
    intro tkvs y hm
    simp [List.foldlM_nil, E_pure_def] at hm
    exact ⟨tkvs, hm.symm, fun k _ => rfl⟩
  | cons p ps ih =>
    intro tkvs y hm
    rw [List.foldlM_cons] at hm
    cases hmf : mergeField source (.obj tkvs) p with
    | error e => rw [hmf] at hm; simp at hm
    | ok t' =>
      rw [hmf] at hm
      simp at hm
      obtain ⟨tkvs1, rfl, hother⟩ := mergeField_obj_other source tkvs p t' hmf
      obtain ⟨tkvs', rfl, hother'⟩ := ih tkvs1 y hm
      refine ⟨tkvs', rfl, fun k hk => ?_⟩
      rw [hother' k (fun q hq => hk q (List.mem_cons_of_mem p hq)),
        hother k (hk p (List.mem_cons_self p ps))]

theorem stepRef_other (fs : FS) (base : String) (kvs kvs1 : List (String × Yaml))
    (ds : List String) (hm : stepRef fs base kvs = M.ok kvs1 ds) :
    ∀ k, (∀ p ∈ openapiMapping, p.2 ≠ k) → lookup k kvs1 = lookup k kvs := by
  cases href : lookup "x-business-definition" kvs with
  | none =>
    simp [stepRef, href, M_pure_def] at hm
    intro k hk
    rw [← (M_ok_inj hm).1]
  | some refv =>
    cases refv with
    | str ref =>
      cases hres : resolve_business_definition fs ref base with
      | error e => simp [stepRef, href, hres, M_bind_err] at hm
      | ok pr =>
        cases pr with
        | mk r ds0 =>
          cases r with
          | none =>
            simp [stepRef, href, hres, M_pure_def, M.withWarnings] at hm
            intro k hk
            rw [← (M_ok_inj hm).1]
          | some d =>
            cases hd : d.truthy with
            | false =>
              simp [stepRef, href, hres, hd, M_pure_def, M.withWarnings] at hm
              intro k hk
              rw [← (M_ok_inj hm).1]
            | true =>
              cases hmerge : merge_properties (.obj kvs) d with
              | error e =>
                simp [stepRef, href, hres, hd, hmerge, M.withWarnings] at hm
              | ok m =>
                obtain ⟨mkvs, rfl, hother⟩ := foldlM_mergeField_other d openapiMapping kvs m hmerge
                simp [stepRef, href, hres, hd, hmerge, M_pure_def, M.withWarnings] at hm
                intro k hk
                rw [← (M_ok_inj hm).1, hother k hk]
    | null => simp [stepRef, href] at hm
    | bool b => simp [stepRef, href] at hm
    | int n => simp [stepRef, href] at hm
    | arr xs => simp [stepRef, href] at hm
    | obj kvs2 => simp [stepRef, href] at hm

theorem stepProps_other (g : Yaml → M Yaml) (kvs kvs' : List (String × Yaml))
    (ds : List String) (hm : stepProps g kvs = M.ok kvs' ds) :
    ∀ k, "properties" ≠ k → lookup k kvs' = lookup k kvs := by
  cases hp : lookup "properties" kvs with
  | none =>
    simp [stepProps, hp, M_pure_def] at hm
    intro k hk
    rw [← (M_ok_inj hm).1]
  | some v =>
    cases v with
    | obj pkvs =>
      simp only [stepProps, hp] at hm
      cases hmp : pkvs.mapM (fun p => do
          let v' ← g p.2
          pure (p.1, v')) with
      | error e => rw [hmp, M_bind_err] at hm; cases hm
      | ok pr =>
        cases pr with
        | mk pkvs' ds0 =>
          rw [hmp, M_bind_ok_eq, M_pure_def, M_withWarnings_ok] at hm
          intro k hk
          rw [← (M_ok_inj hm).1, lookup_setKey_ne k "properties" _ kvs hk]
    | null => simp [stepProps, hp] at hm
    | bool b => simp [stepProps, hp] at hm
    | str s => simp [stepProps, hp] at hm
    | int n => simp [stepProps, hp] at hm
    | arr xs => simp [stepProps, hp] at hm

theorem stepItems_other (g : Yaml → M Yaml) (kvs kvs' : List (String × Yaml))
    (ds : List String) (hm : stepItems g kvs = M.ok kvs' ds) :
    ∀ k, "items" ≠ k → lookup k kvs' = lookup k kvs := by
  cases hi : lookup "items" kvs with
  | none =>
    simp [stepItems, hi, M_pure_def] at hm
    intro k hk
    rw [← (M_ok_inj hm).1]
  | some it =>
    simp only [stepItems, hi] at hm
    cases hg : g it with
    | error e => rw [hg, M_bind_err] at hm; cases hm
    | ok pr =>
      cases pr with
      | mk it' ds0 =>
        rw [hg, M_bind_ok_eq, M_pure_def, M_withWarnings_ok] at hm
        intro k hk
        rw [← (M_ok_inj hm).1, lookup_setKey_ne k "items" it' kvs hk]

theorem stepComp_other (g : Yaml → M Yaml) (key : String) (kvs kvs' : List (String × Yaml))
    (ds : List String) (hm : stepComp g key kvs = M.ok kvs' ds) :
    ∀ k, key ≠ k → lookup k kvs' = lookup k kvs := by
  cases ha : lookup key kvs with
  | none =>
    simp [stepComp, ha, M_pure_def] at hm
    intro k hk
    rw [← (M_ok_inj hm).1]
  | some v =>
    cases v with
    | arr xs =>
      simp only [stepComp, ha] at hm
      cases hmx : xs.mapM (fun x => g x) with
      | error e => rw [hmx, M_bind_err] at hm; cases hm
      | ok pr =>
        cases pr with
        | mk xs' ds0 =>
          rw [hmx, M_bind_ok_eq, M_pure_def, M_withWarnings_ok] at hm
          intro k hk
          rw [← (M_ok_inj hm).1, lookup_setKey_ne k key _ kvs hk]
    | obj okvs =>
      simp [stepComp, ha, M_pure_def] at hm
      intro k hk
      rw [← (M_ok_inj hm).1]
    | str s =>
      simp [stepComp, ha, M_pure_def] at hm
      intro k hk
      rw [← (M_ok_inj hm).1]
    | null => simp [stepComp, ha] at hm
    | bool b => simp [stepComp, ha] at hm
    | int n => simp [stepComp, ha] at hm



theorem stepProps_congr (g1 g2 : Yaml → M Yaml) (kvs : List (String × Yaml))
    (h : ∀ pkvs, lookup "properties" kvs = some (.obj pkvs) → ∀ p ∈ pkvs, g1 p.2 = g2 p.2) :
    stepProps g1 kvs = stepProps g2 kvs := by
  cases hp : lookup "properties" kvs with
  | none => simp only [stepProps, hp]
  | some v =>
    cases v with
    | obj pkvs =>
      simp only [stepProps, hp]
      rw [mapM_congr _ _ pkvs (fun p hmem => by rw [h pkvs hp p hmem])]
    | null => simp only [stepProps, hp]
    | bool b => simp only [stepProps, hp]
    | str s => simp only [stepProps, hp]
    | int n => simp only [stepProps, hp]
    | arr xs => simp only [stepProps, hp]

theorem stepItems_congr (g1 g2 : Yaml → M Yaml) (kvs : List (String × Yaml))
    (h : ∀ it, lookup "items" kvs = some it → g1 it = g2 it) :
    stepItems g1 kvs = stepItems g2 kvs := by
  cases hi : lookup "items" kvs with
  | none => simp only [stepItems, hi]
  | some it =>
    simp only [stepItems, hi]
    rw [h it hi]

theorem stepComp_congr (g1 g2 : Yaml → M Yaml) (key : String) (kvs : List (String × Yaml))
    (h : ∀ xs, lookup key kvs = some (.arr xs) → ∀ x ∈ xs, g1 x = g2 x) :
    stepComp g1 key kvs = stepComp g2 key kvs := by
  cases ha : lookup key kvs with
  | none => simp only [stepComp, ha]
  | some v =>
    cases v with
    | arr xs =>
      simp only [stepComp, ha]
      rw [mapM_congr _ _ xs (h xs ha)]
    | null => simp only [stepComp, ha]
    | bool b => simp only [stepComp, ha]
    | str s => simp only [stepComp, ha]
    | int n => simp only [stepComp, ha]
    | obj okvs => simp only [stepComp, ha]

theorem processStep_congr (fs : FS) (base : String) (g1 g2 : Yaml → M Yaml) (y : Yaml)
    (h : ∀ v, Yaml.size v < Yaml.size y → g1 v = g2 v) :
    processStep fs base g1 y = processStep fs base g2 y := by
  cases y with
  | null => rfl
  | bool b => rfl
  | str s => rfl
  | int n => rfl
  | arr xs => rfl
  | obj kvs =>
    have hsz : ∀ v : Yaml, Yaml.size v ≤ Yaml.sizeDict kvs → g1 v = g2 v := by
      intro v hv
      apply h
      show Yaml.size v < Yaml.sizeDict kvs + 1
      omega
    simp only [processStep]
    apply M_bind_congr
    intro kvs1 ds1 h1
    have e1 : ∀ k, (∀ p ∈ openapiMapping, p.2 ≠ k) → lookup k kvs1 = lookup k kvs :=
      stepRef_other fs base kvs kvs1 ds1 h1
    rw [stepProps_congr g1 g2 kvs1 ?hpc]
    case hpc =>
      intro pkvs hpk p hp
      apply hsz
      have hb1 : Yaml.size (Yaml.obj pkvs) ≤ Yaml.sizeDict kvs :=
        sizeDict_lookup "properties" kvs _ ((e1 "properties" (by decide)) ▸ hpk)
      have hb2 : Yaml.size p.2 ≤ Yaml.sizeDict pkvs := sizeDict_mem pkvs p hp
      have hb3 : Yaml.size (Yaml.obj pkvs) = Yaml.sizeDict pkvs + 1 := rfl
      omega
    apply M_bind_congr
    intro kvs2 ds2 h2
    have e2 : ∀ k, "properties" ≠ k → lookup k kvs2 = lookup k kvs1 :=
      stepProps_other g2 kvs1 kvs2 ds2 h2
    rw [stepItems_congr g1 g2 kvs2 ?hic]
    case hic =>
      intro it hit
      apply hsz
      exact sizeDict_lookup "items" kvs it
        ((e1 "items" (by decide)) ▸ (e2 "items" (by decide)) ▸ hit)
    apply M_bind_congr
    intro kvs3 ds3 h3
    have e3 : ∀ k, "items" ≠ k → lookup k kvs3 = lookup k kvs2 :=
      stepItems_other g2 kvs2 kvs3 ds3 h3
    rw [stepComp_congr g1 g2 "allOf" kvs3 ?hac]
    case hac =>
      intro xs hxs x hx
      apply hsz
      have hb1 : Yaml.size (Yaml.arr xs) ≤ Yaml.sizeDict kvs :=
        sizeDict_lookup "allOf" kvs _
          ((e1 "allOf" (by decide)) ▸ (e2 "allOf" (by decide)) ▸
            (e3 "allOf" (by decide)) ▸ hxs)
      have hb2 : Yaml.size x ≤ Yaml.sizeList xs := sizeList_mem xs x hx
      have hb3 : Yaml.size (Yaml.arr xs) = Yaml.sizeList xs + 1 := rfl
      omega
    apply M_bind_congr
    intro kvs4 ds4 h4
    have e4 : ∀ k, "allOf" ≠ k → lookup k kvs4 = lookup k kvs3 :=
      stepComp_other g2 "allOf" kvs3 kvs4 ds4 h4
    rw [stepComp_congr g1 g2 "oneOf" kvs4 ?hoc]
    case hoc =>
      intro xs hxs x hx
      apply hsz
      have hb1 : Yaml.size (Yaml.arr xs) ≤ Yaml.sizeDict kvs :=
        sizeDict_lookup "oneOf" kvs _
          ((e1 "oneOf" (by decide)) ▸ (e2 "oneOf" (by decide)) ▸
            (e3 "oneOf" (by decide)) ▸ (e4 "oneOf" (by decide)) ▸ hxs)
      have hb2 : Yaml.size x ≤ Yaml.sizeList xs := sizeList_mem xs x hx
      have hb3 : Yaml.size (Yaml.arr xs) = Yaml.sizeList xs + 1 := rfl
      omega
    apply M_bind_congr
    intro kvs5 ds5 h5
    have e5 : ∀ k, "oneOf" ≠ k → lookup k kvs5 = lookup k kvs4 :=
      stepComp_other g2 "oneOf" kvs4 kvs5 ds5 h5
    rw [stepComp_congr g1 g2 "anyOf" kvs5 ?hnc]
    case hnc =>
      intro xs hxs x hx
      apply hsz
      have hb1 : Yaml.size (Yaml.arr xs) ≤ Yaml.sizeDict kvs :=
        sizeDict_lookup "anyOf" kvs _
          ((e1 "anyOf" (by decide)) ▸ (e2 "anyOf" (by decide)) ▸
            (e3 "anyOf" (by decide)) ▸ (e4 "anyOf" (by decide)) ▸
            (e5 "anyOf" (by decide)) ▸ hxs)
      have hb2 : Yaml.size x ≤ Yaml.sizeList xs := sizeList_mem xs x hx
      have hb3 : Yaml.size (Yaml.arr xs) = Yaml.sizeList xs + 1 := rfl
      omega

/-- The fuel of `processFuel` is irrelevant as soon as it reaches
`Yaml.size` of the node: any two sufficient fuels give the same run. -/
theorem processFuel_irrelevant (fs : FS) (base : String) :
    ∀ (n : Nat) (y : Yaml) (f1 f2 : Nat),
      Yaml.size y ≤ n → Yaml.size y ≤ f1 → Yaml.size y ≤ f2 →
      processFuel fs base f1 y = processFuel fs base f2 y := by
  intro n
  induction n with
  | zero =>
    intro y f1 f2 hn _ _
    have := Yaml.size_pos y
    omega
  | succ n ih =>
    intro y f1 f2 hn h1 h2
    have hpos := Yaml.size_pos y
    obtain ⟨a, rfl⟩ : ∃ a, f1 = a + 1 := ⟨f1 - 1, by omega⟩
    obtain ⟨b, rfl⟩ : ∃ b, f2 = b + 1 := ⟨f2 - 1, by omega⟩
    show processStep fs base (processFuel fs base a) y =
      processStep fs base (processFuel fs base b) y
    apply processStep_congr
    intro v hv
    exact ih v a b (by omega) (by omega) (by omega)

/-- With sufficient fuel, `processFuel` is exactly `process_schema`. -/
theorem processFuel_spec (fs : FS) (base : String) (f : Nat) (y : Yaml)
    (h : Yaml.size y ≤ f) : processFuel fs base f y = process_schema fs base y :=
  processFuel_irrelevant fs base (Yaml.size y) y f (Yaml.size y) le_rfl h le_rfl

/-- `process_schema` satisfies exactly the recursion equation of the
source: one application of the body, with `process_schema` itself at the
recursive positions.  This certifies that the fuel construction never
runs out and the embedding computes the same function as the recursive
Python code. -/
theorem process_schema_unfold (fs : FS) (base : String) (y : Yaml) :
    process_schema fs base y = processStep fs base (process_schema fs base) y := by
  cases y with
  | null => rfl
  | bool b => rfl
  | str s => rfl
  | int n => rfl
  | arr xs => rfl
  | obj kvs =>
    show processStep fs base (processFuel fs base (Yaml.sizeDict kvs)) (Yaml.obj kvs) =
      processStep fs base (process_schema fs base) (Yaml.obj kvs)
    apply processStep_congr
    intro v hv
    apply processFuel_spec
    have : Yaml.size (Yaml.obj kvs) = Yaml.sizeDict kvs + 1 := rfl
    omega

/-! ### The claims -/

/-- C1: Non-overwrite invariant.  If the target node or property record
already has field `F` — whatever its value, including falsy values —
then a successful merge leaves `F` bound to exactly the same value, in
both the OpenAPI merge path (`merge_properties`) and the ODCS merge
chain (`odcs_merge`): presence of the key, not truthiness of its value,
gates the write. -/
theorem C1_non_overwrite (source : Yaml) (tkvs : List (String × Yaml)) (F : String) (v : Yaml)
    (hF : lookup F tkvs = some v) :
    (∀ y, merge_properties (.obj tkvs) source = .ok y → pyGet y F = .ok v) ∧
    (∀ y, odcs_merge source (.obj tkvs) = .ok y → pyGet y F = .ok v) := by
  constructor
  · intro y hm
    obtain ⟨tkvs', rfl, hF'⟩ := foldlM_mergeField_preserve source openapiMapping tkvs y F v hF hm
    simp [pyGet, hF']
  · intro y hm
    obtain ⟨tkvs', rfl, hF'⟩ := foldlM_mergeField_preserve source odcsMapping tkvs y F v hF hm
    simp [pyGet, hF']

/-- Witness for C1: a target that already carries the falsy field
`x-pii: false` keeps it through both merge paths against a definition
that defines `pii`. -/
theorem C1_non_overwrite_witness :
    (∀ y, merge_properties (.obj [("x-pii", Yaml.bool false)]) defOrderId = .ok y →
      pyGet y "x-pii" = .ok (Yaml.bool false)) ∧
    (∀ y, odcs_merge defOrderId (.obj [("x-pii", Yaml.bool false)]) = .ok y →
      pyGet y "x-pii" = .ok (Yaml.bool false)) :=
  C1_non_overwrite defOrderId [("x-pii", Yaml.bool false)] "x-pii" (Yaml.bool false) rfl

/-- C2: Mapping completeness.  Merging a definition dict into a target
dict that has none of the mapped target fields copies, for every entry
of the per-format rename table (`openapiMapping` resp. `odcsMapping`),
every source field present in the definition to its mapped target field
with the same value; every key outside the table's target column is left
exactly as it was on the target, so fields of the definition outside the
table (such as `id`, `owner`, and `pattern`/`enum` for ODCS) are never
copied. -/
theorem C2_mapping_completeness (skvs tkvs : List (String × Yaml))
    (habsOA : ∀ p ∈ openapiMapping, hasKey p.2 tkvs = false)
    (habsOD : ∀ p ∈ odcsMapping, hasKey p.2 tkvs = false) :
    (∃ rkvs, merge_properties (.obj tkvs) (.obj skvs) = .ok (.obj rkvs) ∧
      (∀ p ∈ openapiMapping, ∀ w, lookup p.1 skvs = some w → lookup p.2 rkvs = some w) ∧
      (∀ k, (∀ p ∈ openapiMapping, p.2 ≠ k) → lookup k rkvs = lookup k tkvs)) ∧
    (∃ rkvs, odcs_merge (.obj skvs) (.obj tkvs) = .ok (.obj rkvs) ∧
      (∀ p ∈ odcsMapping, ∀ w, lookup p.1 skvs = some w → lookup p.2 rkvs = some w) ∧
      (∀ k, (∀ p ∈ odcsMapping, p.2 ≠ k) → lookup k rkvs = lookup k tkvs)) :=
  ⟨foldlM_mergeField_spec skvs openapiMapping tkvs (by decide) habsOA,
   foldlM_mergeField_spec skvs odcsMapping tkvs (by decide) habsOD⟩

/-- Witness for C2: a definition carrying every recognized source field
merged into an empty target. -/
theorem C2_mapping_completeness_witness :
    (∃ rkvs, merge_properties (.obj []) (.obj defFullKvs) = .ok (.obj rkvs) ∧
      (∀ p ∈ openapiMapping, ∀ w, lookup p.1 defFullKvs = some w → lookup p.2 rkvs = some w) ∧
      (∀ k, (∀ p ∈ openapiMapping, p.2 ≠ k) → lookup k rkvs = lookup k [])) ∧
    (∃ rkvs, odcs_merge (.obj defFullKvs) (.obj []) = .ok (.obj rkvs) ∧
      (∀ p ∈ odcsMapping, ∀ w, lookup p.1 defFullKvs = some w → lookup p.2 rkvs = some w) ∧
      (∀ k, (∀ p ∈ odcsMapping, p.2 ≠ k) → lookup k rkvs = lookup k [])) :=
  C2_mapping_completeness defFullKvs [] (by intro p hp; rfl) (by intro p hp; rfl)

/-- C3: Recursion completeness of the OpenAPI walker.  (1) A node that
is not a mapping is a no-op leaf.  (2) A node carrying a reference and
all five keys `properties`, `items`, `allOf`, `oneOf`, `anyOf` at once
has the reference resolved and all five children traversed — the
traversals are not mutually exclusive.  (3) A reference nested below `n`
`properties` layers is resolved for every `n`.  (4) A reference nested
along `properties → items → allOf[1] → properties` is resolved. -/
theorem C3_recursion_completeness :
    (∀ (fs : FS) (base : String) (y : Yaml), (∀ kvs, y ≠ .obj kvs) →
      process_schema fs base y = M.ok y []) ∧
    (process_schema fsOrder "docs" allKeysNode = M.ok (.obj [
      ("x-business-definition", .str "file://defs/order_id.yaml"),
      ("properties", .obj [("a", resolvedRefNode)]),
      ("items", resolvedRefNode),
      ("allOf", .arr [resolvedRefNode]),
      ("oneOf", .arr [resolvedRefNode]),
      ("anyOf", .arr [resolvedRefNode]),
      ("type", .str "string"), ("x-pii", .bool false), ("title", .str "Order ID")]) []) ∧
    (∀ n : Nat, process_schema fsOrder "docs" (nestedRef n) = M.ok (nestedResolved n) []) ∧
    (process_schema fsOrder "docs" deepNode = M.ok (.obj [("properties", .obj [("q", .obj [("items",
      .obj [("allOf", .arr [.obj [], .obj [("properties",
        .obj [("r", resolvedRefNode)])]])])])])]) []) := by
  refine ⟨?_, rfl, process_schema_nestedRef, rfl⟩
  intro fs base y h
  cases y with
  | obj kvs => exact absurd rfl (h kvs)
  | null => rfl
  | bool b => rfl
  | str s => rfl
  | int n => rfl
  | arr xs => rfl

/-- Witness for C3: the leaf case at a concrete non-mapping node. -/
theorem C3_recursion_completeness_witness :
    process_schema fsOrder "docs" (.str "leaf") = M.ok (.str "leaf") [] :=
  C3_recursion_completeness.1 fsOrder "docs" (.str "leaf") (fun _ h => Yaml.noConfusion h)

/-- C4: Missing-file tolerance.  (1) Resolving a `file://` reference
whose path is absent emits exactly one warning naming the path and
returns `none` without an error.  (2) A node carrying such a reference
keeps exactly the fields it had.  (3) Likewise for an ODCS property
link.  (4) A whole pipeline run over a document with one dangling and
one good reference still succeeds: the dangling node is unchanged, the
good one is merged, and the warning names the missing path. -/
theorem C4_missing_file_tolerance :
    (∀ (fs : FS) (ref base : String), strStartsWith ref "file://" = true →
      fs (joinPath base (ref.drop 7)) = none →
      resolve_business_definition fs ref base =
        M.ok none ["Warning: Business definition not found: " ++ joinPath base (ref.drop 7)]) ∧
    (∀ (fs : FS) (base ref : String) (kvs : List (String × Yaml)),
      lookup "x-business-definition" kvs = some (.str ref) →
      strStartsWith ref "file://" = true →
      fs (joinPath base (ref.drop 7)) = none →
      lookup "properties" kvs = none → lookup "items" kvs = none →
      lookup "allOf" kvs = none → lookup "oneOf" kvs = none → lookup "anyOf" kvs = none →
      process_schema fs base (.obj kvs) =
        M.ok (.obj kvs)
          ["Warning: Business definition not found: " ++ joinPath base (ref.drop 7)]) ∧
    (∀ (fs : FS) (base url : String) (prop : Yaml) (akvs : List (String × Yaml)),
      optEqStr (lookup "type" akvs) "businessDefinition" = true →
      lookup "url" akvs = some (.str url) →
      strStartsWith url "file://" = true →
      fs (joinPath base (url.drop 7)) = none →
      processAuthDef fs base prop (.obj akvs) =
        M.ok prop ["Warning: Business definition not found: " ++ joinPath base (url.drop 7)]) ∧
    (postprocess_openapi fsMixed "docs/api.yaml" =
      M.ok (.obj [("components", .obj [("schemas", .obj [
        ("Bad", .obj [("x-business-definition", .str "file://defs/missing.yaml")]),
        ("Good", resolvedRefNode)])])])
        ["Warning: Business definition not found: docs/defs/missing.yaml"]) :=
  ⟨resolve_missing, process_schema_missing, processAuthDef_missing, rfl⟩

/-- Witness for C4: resolving a dangling reference on an empty
filesystem. -/
theorem C4_missing_file_tolerance_witness :
    resolve_business_definition (fun _ => none) "file://defs/missing.yaml" "docs" =
      M.ok none ["Warning: Business definition not found: docs/defs/missing.yaml"] :=
  C4_missing_file_tolerance.1 (fun _ => none) "file://defs/missing.yaml" "docs" rfl rfl

/-- C5: Fatal-error atomicity.  (1) If the source document exists but
cannot be parsed, both pipelines abort with the parse error and produce
no output document.  (2, 3) If a referenced definition file exists but
is malformed, the error propagates out of the walk and the run aborts —
the output (the returned document) is only produced after the whole walk
has succeeded. -/
theorem C5_fatal_atomicity :
    (∀ (fs : FS) (p : String), fs p = some .malformed →
      postprocess_openapi fs p = M.err (.parseError p) ∧
      postprocess_odcs fs p = M.err (.parseError p)) ∧
    (postprocess_openapi fsBadDef "docs/api.yaml" = M.err (.parseError "docs/defs/bad.yaml")) ∧
    (postprocess_odcs fsBadDef "docs/contract.yaml" = M.err (.parseError "docs/defs/bad.yaml")) :=
  ⟨postprocess_malformed_source, rfl, rfl⟩

/-- Witness for C5: a filesystem whose every file is malformed. -/
theorem C5_fatal_atomicity_witness :
    postprocess_openapi (fun _ => some FileContent.malformed) "in.yaml" =
      M.err (.parseError "in.yaml") ∧
    postprocess_odcs (fun _ => some FileContent.malformed) "in.yaml" =
      M.err (.parseError "in.yaml") :=
  C5_fatal_atomicity.1 (fun _ => some FileContent.malformed) "in.yaml" rfl

/-- C6: Scheme discrimination.  A reference that does not start with
`file://` resolves to `none` silently: no warning, no error, and the
referencing node (OpenAPI) or property (ODCS) is left entirely
unchanged. -/
theorem C6_scheme_discrimination :
    (∀ (fs : FS) (ref base : String), strStartsWith ref "file://" = false →
      resolve_business_definition fs ref base = M.ok none []) ∧
    (∀ (fs : FS) (base ref : String) (kvs : List (String × Yaml)),
      lookup "x-business-definition" kvs = some (.str ref) →
      strStartsWith ref "file://" = false →
      lookup "properties" kvs = none → lookup "items" kvs = none →
      lookup "allOf" kvs = none → lookup "oneOf" kvs = none → lookup "anyOf" kvs = none →
      process_schema fs base (.obj kvs) = M.ok (.obj kvs) []) ∧
    (∀ (fs : FS) (base url : String) (prop : Yaml) (akvs : List (String × Yaml)),
      optEqStr (lookup "type" akvs) "businessDefinition" = true →
      lookup "url" akvs = some (.str url) →
      strStartsWith url "file://" = false →
      processAuthDef fs base prop (.obj akvs) = M.ok prop []) :=
  ⟨resolve_nonfile, process_schema_nonfile, processAuthDef_nonfile⟩

/-- Witness for C6: an `https://` reference resolves to `none` with no
diagnostic. -/
theorem C6_scheme_discrimination_witness :
    resolve_business_definition fsOrder "https://example.com/def.yaml" "docs" = M.ok none [] :=
  C6_scheme_discrimination.1 fsOrder "https://example.com/def.yaml" "docs" rfl

/-- C7: ODCS flat resolution and link filtering.  (1) A link record
whose `type` is not the string `businessDefinition`, or which carries no
`url`, is skipped silently regardless of its `url`.  (2) On a contract
whose first property carries a `jira` link, a url-less business link and
a proper business link, only the proper link is resolved and merged, and
a business link sitting inside a *nested* mapping of another property is
not resolved — the walker goes one level deep only. -/
theorem C7_odcs_flat_resolution :
    (∀ (fs : FS) (base : String) (prop : Yaml) (akvs : List (String × Yaml)),
      (optEqStr (lookup "type" akvs) "businessDefinition" && hasKey "url" akvs) = false →
      processAuthDef fs base prop (.obj akvs) = M.ok prop []) ∧
    (postprocess_odcs fsLinks "docs/contract.yaml" =
      M.ok (.obj [("schema", .arr [.obj [("properties", .arr [
        .obj [("name", .str "order_id"), ("authoritativeDefinitions", .arr [
          .obj [("type", .str "jira"), ("url", .str "file://defs/other.yaml")],
          .obj [("type", .str "businessDefinition")],
          .obj [("type", .str "businessDefinition"),
            ("url", .str "file://defs/order_id.yaml")]]),
          ("businessName", .str "Order ID"), ("logicalType", .str "string")],
        .obj [("name", .str "plain"), ("nested", .obj [("authoritativeDefinitions", .arr [
          .obj [("type", .str "businessDefinition"),
            ("url", .str "file://defs/order_id.yaml")]])])]
        ])]])]) []) :=
  ⟨processAuthDef_skip, rfl⟩

/-- Witness for C7: a `jira`-typed link is skipped silently even though
its `url` points at an existing definition file. -/
theorem C7_odcs_flat_resolution_witness :
    processAuthDef fsLinks "docs" (.obj [("name", .str "p")])
      (.obj [("type", .str "jira"), ("url", .str "file://defs/other.yaml")]) =
    M.ok (.obj [("name", .str "p")]) [] :=
  C7_odcs_flat_resolution.1 fsLinks "docs" (.obj [("name", .str "p")])
    [("type", .str "jira"), ("url", .str "file://defs/other.yaml")] rfl

/-- C8: End-to-end example.  The schema node referencing
`defs/order_id.yaml` (with `title`, `type`, `pii: false`) gains `title`,
`type` and `x-pii: false` — the boolean `false` is copied because
source-side presence, not truthiness, selects fields — while the
reference field is retained; with `type: integer` pre-set, `type` is
kept and `title`/`x-pii` are still added.  (Python dict insertion order
places the merged keys after the pre-existing ones; as mappings these
are exactly the claimed nodes.) -/
theorem C8_end_to_end :
    (process_schema fsOrder "docs"
        (.obj [("x-business-definition", .str "file://defs/order_id.yaml")]) =
      M.ok (.obj [("x-business-definition", .str "file://defs/order_id.yaml"),
        ("type", .str "string"), ("x-pii", .bool false), ("title", .str "Order ID")]) []) ∧
    (process_schema fsOrder "docs"
        (.obj [("x-business-definition", .str "file://defs/order_id.yaml"),
          ("type", .str "integer")]) =
      M.ok (.obj [("x-business-definition", .str "file://defs/order_id.yaml"),
        ("type", .str "integer"), ("x-pii", .bool false), ("title", .str "Order ID")]) []) :=
  ⟨rfl, rfl⟩

/-- C9: Falsy resolved definitions are silently skipped.  If the
referenced file exists and parses to a falsy document (`null` from an
empty file, an empty mapping, …), neither walker merges anything and no
error is raised: the node or property is returned unchanged with no
diagnostic — the merge is gated on the truthiness of the resolved
definition, not on its mere presence. -/
theorem C9_falsy_skipped :
    (∀ (fs : FS) (base ref : String) (kvs : List (String × Yaml)) (d : Yaml),
      lookup "x-business-definition" kvs = some (.str ref) →
      strStartsWith ref "file://" = true →
      fs (joinPath base (ref.drop 7)) = some (.parsed d) →
      d.truthy = false →
      lookup "properties" kvs = none → lookup "items" kvs = none →
      lookup "allOf" kvs = none → lookup "oneOf" kvs = none → lookup "anyOf" kvs = none →
      process_schema fs base (.obj kvs) = M.ok (.obj kvs) []) ∧
    (∀ (fs : FS) (base url : String) (prop : Yaml) (akvs : List (String × Yaml)) (d : Yaml),
      optEqStr (lookup "type" akvs) "businessDefinition" = true →
      lookup "url" akvs = some (.str url) →
      strStartsWith url "file://" = true →
      fs (joinPath base (url.drop 7)) = some (.parsed d) →
      d.truthy = false →
      processAuthDef fs base prop (.obj akvs) = M.ok prop []) :=
  ⟨fun fs base ref kvs d href hs hfile hfalsy hp hi ha ho hn =>
    process_schema_falsy fs base ref kvs d href hs hfile hfalsy hp hi ha ho hn,
   fun fs base url prop akvs d ht hurl hs hfile hfalsy =>
    processAuthDef_falsy fs base url prop akvs d ht hurl hs hfile hfalsy⟩

/-- Witness for C9: a definition file parsing to `null` (empty file) is
skipped by both walkers. -/
theorem C9_falsy_skipped_witness :
    process_schema fsNull "docs"
      (.obj [("x-business-definition", .str "file://defs/empty.yaml")]) =
      M.ok (.obj [("x-business-definition", .str "file://defs/empty.yaml")]) [] ∧
    processAuthDef fsNull "docs" (.obj [("name", .str "p")])
      (.obj [("type", .str "businessDefinition"), ("url", .str "file://defs/empty.yaml")]) =
      M.ok (.obj [("name", .str "p")]) [] :=
  ⟨C9_falsy_skipped.1 fsNull "docs" "file://defs/empty.yaml"
      [("x-business-definition", .str "file://defs/empty.yaml")] .null
      rfl rfl rfl rfl rfl rfl rfl rfl rfl,
   C9_falsy_skipped.2 fsNull "docs" "file://defs/empty.yaml" (.obj [("name", .str "p")])
      [("type", .str "businessDefinition"), ("url", .str "file://defs/empty.yaml")] .null
      rfl rfl rfl rfl rfl⟩

/-- C10: ODCS multi-link precedence.  (1) Whatever field the property
holds after processing a prefix of its `authoritativeDefinitions` links
is still held, with the same value, after the remaining links are
processed — so the earliest link to define a field wins, and a field the
property had from the start beats every link.  (2, 3) Concretely, with
two business links to definitions `A` (title, type) and `B` (title,
description): `businessName` comes from `A`, `description` from `B`
(both links are resolved and merged, in list order); with `businessName`
pre-set on the property, the pre-set value survives both links. -/
theorem C10_multi_link_precedence :
    (∀ (fs : FS) (base : String) (xs1 xs2 : List Yaml) (pkvs pkvs1 : List (String × Yaml))
      (F : String) (v : Yaml) (y : Yaml) (ds1 ds : List String),
      xs1.foldlM (fun pr a => processAuthDef fs base pr a) (Yaml.obj pkvs) =
        M.ok (.obj pkvs1) ds1 →
      lookup F pkvs1 = some v →
      (xs1 ++ xs2).foldlM (fun pr a => processAuthDef fs base pr a) (Yaml.obj pkvs) =
        M.ok y ds →
      pyGet y F = .ok v) ∧
    (process_odcs_property fsAB "docs"
        (.obj [("name", .str "order_id"), ("authoritativeDefinitions", .arr [linkA, linkB])]) =
      M.ok (.obj [("name", .str "order_id"), ("authoritativeDefinitions", .arr [linkA, linkB]),
        ("businessName", .str "A Title"), ("logicalType", .str "string"),
        ("description", .str "B desc")]) []) ∧
    (process_odcs_property fsAB "docs"
        (.obj [("businessName", .str "Pre"), ("authoritativeDefinitions", .arr [linkA, linkB])]) =
      M.ok (.obj [("businessName", .str "Pre"), ("authoritativeDefinitions", .arr [linkA, linkB]),
        ("logicalType", .str "string"), ("description", .str "B desc")]) []) :=
  ⟨fun fs base xs1 xs2 pkvs pkvs1 F v y ds1 ds h1 hF h2 =>
    foldlM_processAuthDef_prefix_wins fs base xs1 xs2 pkvs pkvs1 F v y ds1 ds h1 hF h2,
   rfl, rfl⟩

/-- Witness for C10: after the first of two links sets `businessName` to
`A Title`, processing both links still yields `A Title`. -/
theorem C10_multi_link_precedence_witness :
    pyGet (.obj [("name", .str "order_id"), ("authoritativeDefinitions", .arr [linkA, linkB]),
      ("businessName", .str "A Title"), ("logicalType", .str "string"),
      ("description", .str "B desc")]) "businessName" = .ok (.str "A Title") :=
  C10_multi_link_precedence.1 fsAB "docs" [linkA] [linkB]
    [("name", .str "order_id"), ("authoritativeDefinitions", .arr [linkA, linkB])]
    [("name", .str "order_id"), ("authoritativeDefinitions", .arr [linkA, linkB]),
      ("businessName", .str "A Title"), ("logicalType", .str "string")]
    "businessName" (.str "A Title")
    (.obj [("name", .str "order_id"), ("authoritativeDefinitions", .arr [linkA, linkB]),
      ("businessName", .str "A Title"), ("logicalType", .str "string"),
      ("description", .str "B desc")])
    [] [] rfl rfl rfl

end Postprocess
